import Mathlib

/-
  Verification development for the invoice extraction-and-reconciliation core
  (src/app.py).  The Python functions are shallowly embedded as executable Lean
  definitions:

  * monetary amounts are modelled as exact rationals (ℚ).  The Python code uses
    binary floats; every comparison exercised by the claims (tolerances 0.05 and
    0.1, the bounds 0.01/5000000, sign tests) is far from the representation
    error of the double values involved, so the rational model and the float
    code decide them identically.
  * text is modelled as `String` / `List Char`; Python `len` counts code points
    exactly as `List Char`.length does.
  * the regular-expression searches of the source are embedded as deterministic
    scanners: each scanner is derived from the concrete pattern, and comments at
    the definition justify why the backtracking of the Python `re` engine
    collapses to the deterministic code given.
-/

set_option autoImplicit false
set_option maxRecDepth 4000

namespace Invoice

attribute [local semireducible] Rat.mul Rat.add Rat.sub Rat.inv

abbrev Chars := List Char

/-- Characters removed by Python `str.strip()` (ASCII whitespace). -/
def pyWS (c : Char) : Bool :=
  c = ' ' || c = '\t' || c = '\n' || c = '\r' || c = '\x0b' || c = '\x0c'

/-- Python `s.strip()`. -/
def pyStrip (s : String) : String :=
  ⟨((s.data.dropWhile pyWS).reverse.dropWhile pyWS).reverse⟩

/-- One step of `normalize_text` (app.py:41-48).  All the chained `replace`
calls have single-character targets with pairwise disjoint sources whose
outputs are never themselves replaced later, so the chain is a per-character
map: spaces/newlines are dropped, full-width punctuation and the o/O
homoglyphs are mapped. -/
def normChar (c : Char) : Option Char :=
  if c = ' ' || c = '\n' || c = '\r' then none
  else if c = '：' then some ':'
  else if c = '￥' then some '¥'
  else if c = '（' then some '('
  else if c = '）' then some ')'
  else if c = 'O' || c = 'o' then some '0'
  else some c

/-- `normalize_text` (app.py:41-48). -/
def normalize_text (s : String) : String :=
  ⟨s.data.filterMap normChar⟩

/-- Python substring containment `sub in hay` on char lists. -/
def containsSub : Chars → Chars → Bool
  | [], sub => sub.isEmpty
  | c :: t, sub => sub.isPrefixOf (c :: t) || containsSub t sub

/-- Python substring containment `sub in hay` on strings. -/
def strContains (hay sub : String) : Bool :=
  containsSub hay.data sub.data

/-- ASCII lower-casing; Python `str.lower()` agrees on the ASCII/CJK
alphabet the pipeline works with (CJK characters are unaffected by both). -/
def lowerStr (s : String) : String :=
  ⟨s.data.map Char.toLower⟩

/-- Digit string to natural number, as Python `int` on a digit string. -/
def digitsToNat (cs : Chars) : Nat :=
  cs.foldl (fun a c => a * 10 + (c.toNat - '0'.toNat)) 0

/-- The CN_NUM table of `cn_upper_to_float` (app.py:70-71). -/
def cnNumVal (c : Char) : Option ℚ :=
  if c = '零' then some 0
  else if c = '壹' || c = '一' then some 1
  else if c = '贰' || c = '二' || c = '两' then some 2
  else if c = '叁' || c = '三' then some 3
  else if c = '肆' || c = '四' then some 4
  else if c = '伍' || c = '五' then some 5
  else if c = '陆' || c = '六' then some 6
  else if c = '柒' || c = '七' then some 7
  else if c = '捌' || c = '八' then some 8
  else if c = '玖' || c = '九' then some 9
  else none

/-- The CN_UNIT table of `cn_upper_to_float` (app.py:72). -/
def cnUnitVal (c : Char) : Option ℚ :=
  if c = '拾' || c = '十' then some 10
  else if c = '佰' || c = '百' then some 100
  else if c = '仟' || c = '千' then some 1000
  else if c = '万' then some 10000
  else if c = '亿' then some 100000000
  else none

/-- The `char in ['万', '亿']` test inside `parse_section` (app.py:93). -/
def isBigUnit (c : Char) : Bool := c = '万' || c = '亿'

/-- State of the `parse_section` loop (app.py:84-102): `val`, `unit_val`,
`curr_digit`. -/
structure SecState where
  val : ℚ
  unitVal : ℚ
  curr : ℚ
deriving DecidableEq

/-- One iteration of the `parse_section` loop body (app.py:89-101).  Note the
'零' glyph is in CN_NUM with value 0, so it resets `curr_digit` to 0 exactly as
the Python table lookup does. -/
def sectionStep (st : SecState) (c : Char) : SecState :=
  match cnNumVal c with
  | some d => { st with curr := d }
  | none =>
    match cnUnitVal c with
    | some u =>
      if isBigUnit c then ⟨(st.val + st.unitVal + st.curr) * u, 0, 0⟩
      else { st with unitVal := st.unitVal + st.curr * u, curr := 0 }
    | none => st

/-- `parse_section` (app.py:84-102). -/
def parse_section (s : Chars) : ℚ :=
  let st := s.foldl sectionStep ⟨0, 0, 0⟩
  st.val + st.unitVal + st.curr

/-- State of the decimal loop of `cn_upper_to_float` (app.py:107-117). -/
structure DecState where
  dval : ℚ
  curr : ℚ
deriving DecidableEq

/-- One iteration of the decimal loop (app.py:109-117). -/
def decimalStep (st : DecState) (c : Char) : DecState :=
  match cnNumVal c with
  | some d => { st with curr := d }
  | none =>
    if c = '角' then ⟨st.dval + st.curr * (1/10), 0⟩
    else if c = '分' then ⟨st.dval + st.curr * (1/100), 0⟩
    else st

/-- The decimal part of `cn_upper_to_float` (app.py:107-117). -/
def parse_decimal (s : Chars) : ℚ :=
  (s.foldl decimalStep ⟨0, 0⟩).dval

/-- Floor of a rational, computed on the normalized numerator/denominator
pair (`Int.fdiv` is floor division, and the denominator is positive). -/
def ratFloor (q : ℚ) : ℤ :=
  Int.fdiv q.num q.den

/-- Python `round(x, 2)`.  Python rounds half to even; every value reaching
this call is an exact multiple of 1/100 (integer section plus tenths and
hundredths), so `x*100 + 1/2` is never an integer tie and half-up floor
rounding coincides with it. -/
def round2 (q : ℚ) : ℚ :=
  (ratFloor (q * 100 + 1/2) : ℚ) / 100

/-- The `[圆元]` separator class of the `re.split` in `cn_upper_to_float`
(app.py:79). -/
def cnSep (c : Char) : Bool := c = '圆' || c = '元'

/-- `cn_upper_to_float` (app.py:62-119).  `re.split(r'[圆元]', s)` yields
`parts`; `parts[0]` is the run before the first separator and `parts[1]`
(defaulting to "") the run between the first and second separator, which is
what the takeWhile/dropWhile combination below computes.  The function body
contains no raising operation, matching the spec's "never raises". -/
def cn_upper_to_float (s : String) : ℚ :=
  if s = "" then 0
  else
    let intPart := s.data.takeWhile (fun c => !cnSep c)
    let rest := s.data.dropWhile (fun c => !cnSep c)
    let decPart := (rest.drop 1).takeWhile (fun c => !cnSep c)
    round2 (parse_section intPart + parse_decimal decPart)

/-- The authoritative-numeral character class
`[零壹贰叁肆伍陆柒捌玖拾佰仟万亿圆角分整]` of `upper_pattern` (app.py:133). -/
def cnAmountChar (c : Char) : Bool :=
  c = '零' || c = '壹' || c = '贰' || c = '叁' || c = '肆' || c = '伍' || c = '陆' ||
  c = '柒' || c = '捌' || c = '玖' || c = '拾' || c = '佰' || c = '仟' || c = '万' ||
  c = '亿' || c = '圆' || c = '角' || c = '分' || c = '整'

/-- The anchor alternation `(?:价税合计|大写|金额)` of `upper_pattern`
(app.py:133).  The alternatives begin with pairwise distinct characters, so at
any position at most one of them matches and the alternation is
deterministic. -/
def upperAnchorAt (cs : Chars) : Option Chars :=
  if "价税合计".data.isPrefixOf cs then some (cs.drop 4)
  else if "大写".data.isPrefixOf cs then some (cs.drop 2)
  else if "金额".data.isPrefixOf cs then some (cs.drop 2)
  else none

/-- The lazy `.*?` before the capture group of `upper_pattern`: advance to the
first character of the numeral class; `.` does not match a newline, so a
newline (or the end of the text) before any numeral character makes the match
attempt at this anchor fail. -/
def lazySkipCN : Chars → Option Chars
  | [] => none
  | c :: t =>
    if cnAmountChar c then some (c :: t)
    else if c = '\n' then none
    else lazySkipCN t

/-- `re.search(upper_pattern, text)` (app.py:134): leftmost anchor whose lazy
skip reaches a numeral character; the greedy `+` then captures the maximal
numeral run. -/
def upperSearch : Chars → Option Chars
  | [] => none
  | c :: t =>
    match upperAnchorAt (c :: t) with
    | some rest =>
      match lazySkipCN rest with
      | some cnStart => some (cnStart.takeWhile cnAmountChar)
      | none => upperSearch t
    | none => upperSearch t

/-- Steps 1 of `find_amount_strict` (app.py:130-147): the first
`upper_pattern` match, kept only if the captured numeral string is longer than
one character and converts to a positive amount (`cn_upper_to_float` never
raises, so the `try/except` is dead).  Returns the amount when `has_upper`
would be set. -/
def findUpperAmount (text : Chars) : Option ℚ :=
  match upperSearch text with
  | none => none
  | some cn =>
    if 1 < cn.length ∧ 0 < cn_upper_to_float ⟨cn⟩ then some (cn_upper_to_float ⟨cn⟩)
    else none

/-- The anchor alternation `(?:小写|¥|￥|合计)` of `lower_pattern`
(app.py:152); first characters pairwise distinct, hence deterministic. -/
def lowerAnchorAt (cs : Chars) : Option Chars :=
  if "小写".data.isPrefixOf cs then some (cs.drop 2)
  else if "¥".data.isPrefixOf cs then some (cs.drop 1)
  else if "￥".data.isPrefixOf cs then some (cs.drop 1)
  else if "合计".data.isPrefixOf cs then some (cs.drop 2)
  else none

/-- Greedy `[^0-9\.]*`: skip to the first digit or dot.  Backtracking this
star cannot help the pattern: any shorter skip leaves a non-digit non-dot
character where the capture group requires a digit. -/
def skipNonNum : Chars → Chars
  | [] => []
  | c :: t => if c.isDigit || c = '.' then c :: t else skipNonNum t

/-- Exactly `n` digits from the front (`[0-9]{n}`). -/
def takeDigits : Nat → Chars → Option (Chars × Chars)
  | 0, cs => some ([], cs)
  | _ + 1, [] => none
  | n + 1, c :: t =>
    if c.isDigit then
      match takeDigits n t with
      | some (ds, r) => some (c :: ds, r)
      | none => none
    else none

/-- Greedy `(?:,[0-9]{3})*` with fuel (one unit per group; a group consumes
four characters, so fuel = length of the input always suffices).  Giving up a
matched group can never rescue the pattern: the following `\.` would then face
the `,` that opened the dropped group. -/
def commaGroupsAux : Nat → Chars → Chars × Chars
  | 0, cs => ([], cs)
  | f + 1, cs =>
    match cs with
    | c :: rest =>
      if c = ',' then
        match takeDigits 3 rest with
        | some (ds, r) =>
          let p := commaGroupsAux f r
          (',' :: ds ++ p.1, p.2)
        | none => ([], c :: rest)
      else ([], c :: rest)
    | [] => ([], [])

def commaGroups (cs : Chars) : Chars × Chars :=
  commaGroupsAux cs.length cs

/-- One greedy attempt of the capture group
`([0-9]{1,3}(?:,[0-9]{3})*\.[0-9]{2})` with the leading run forced to `n`
digits. -/
def numTry (n : Nat) (cs : Chars) : Option (Chars × Chars) :=
  match takeDigits n cs with
  | none => none
  | some (ds, r1) =>
    let g := commaGroups r1
    match g.2 with
    | c :: r2 =>
      if c = '.' then
        match takeDigits 2 r2 with
        | none => none
        | some (fs, r3) => some (ds ++ g.1 ++ '.' :: fs, r3)
      else none
    | [] => none

/-- The full capture group: the greedy `{1,3}` tries three, two, then one
leading digits, exactly as the `re` engine backtracks. -/
def numAt (cs : Chars) : Option (Chars × Chars) :=
  match numTry 3 cs with
  | some res => some res
  | none =>
    match numTry 2 cs with
    | some res => some res
    | none => numTry 1 cs

/-- `re.findall(lower_pattern, text)` (app.py:153) with fuel (the scan
position advances at every step, so fuel = length of the text suffices): at
each position try an anchor, skip `[^0-9\.]*`, and match the amount group;
on success continue after the match, otherwise at the next position. -/
def lowerScanAux : Nat → Chars → List Chars
  | 0, _ => []
  | f + 1, cs =>
    match cs with
    | [] => []
    | _ :: t =>
      match lowerAnchorAt cs with
      | some afterAnchor =>
        (match numAt (skipNonNum afterAnchor) with
         | some (m, rest) => m :: lowerScanAux f rest
         | none => lowerScanAux f t)
      | none => lowerScanAux f t

def lowerScan (cs : Chars) : List Chars :=
  lowerScanAux cs.length cs

/-- `float(m.replace(",", ""))` for a string matched by the amount group:
strip the commas, read the integer part and the two-digit fraction. -/
def moneyValue (m : Chars) : ℚ :=
  let noComma := m.filter (fun c => c ≠ ',')
  let ip := noComma.takeWhile (fun c => c ≠ '.')
  let fp := (noComma.dropWhile (fun c => c ≠ '.')).drop 1
  (digitsToNat ip : ℚ) + (digitsToNat fp : ℚ) / 100

/-- The loop over `lower_matches` (app.py:159-166): first match whose value
lies in `[0.01, 5000000]` wins (`float` cannot fail on a string matched by the
group, so the `try/except` is dead). -/
def pickLower : List Chars → Option ℚ
  | [] => none
  | m :: rest =>
    let v := moneyValue m
    if 1/100 ≤ v ∧ v ≤ 5000000 then some v else pickLower rest

/-- Step 2 of `find_amount_strict` (app.py:149-166): the secondary digit-form
amount (`has_lower` / `amount_lower`). -/
def findLowerAmount (text : Chars) : Option ℚ :=
  pickLower (lowerScan text)

/-- Python `str(float)` for the exact-hundredths amounts that reach the
discrepancy note: integer part, then the fractional digits with a trailing
zero dropped but at least one digit kept. -/
def hundredthsRepr (n : Nat) : String :=
  let ip := n / 100
  let rem := n % 100
  if rem = 0 then toString ip ++ ".0"
  else if rem % 10 = 0 then toString ip ++ "." ++ toString (rem / 10)
  else toString ip ++ "." ++ (if rem < 10 then "0" else "") ++ toString rem

def pyFloatRepr (q : ℚ) : String :=
  (if q < 0 then "-" else "") ++ hundredthsRepr (Int.toNat (ratFloor (|q| * 100 + 1/2)))

/-- The f-string `f"⚠️ 大小写不符 (大写:{amount_upper} 小写:{amount_lower})"`
(app.py:174). -/
def discrepancyNote (u l : ℚ) : String :=
  "⚠️ 大小写不符 (大写:" ++ pyFloatRepr u ++ " 小写:" ++ pyFloatRepr l ++ ")"

/-- `find_amount_strict` (app.py:121-185). -/
def find_amount_strict (text : String) : ℚ × String :=
  if text = "" then (0, "空白内容")
  else
    match findUpperAmount text.data, findLowerAmount text.data with
    | some u, some l =>
      if 1/10 < |u - l| then (u, discrepancyNote u l) else (u, "正常")
    | some u, none => (u, "正常 (无小写)")
    | none, some l => (l, "使用小写 (未读到大写)")
    | none, none => (0, "警告:未读到金额")

/-- The first separator class `[-年/.]` of the date pattern (app.py:53). -/
def sepYM (c : Char) : Bool := c = '-' || c = '年' || c = '/' || c = '.'

/-- The second separator class `[-月/.]` of the date pattern (app.py:53). -/
def sepMD (c : Char) : Bool := c = '-' || c = '月' || c = '/' || c = '.'

/-- `\d{1,2}[-月/.]\d{1,2}` with the month run forced to `n` digits: month,
separator, then the greedy one-or-two digit day (nothing follows the day, so
greedy means two digits when available, else one). -/
def monthDayN (n : Nat) (cs : Chars) : Option (Chars × Chars) :=
  match takeDigits n cs with
  | some (m, s :: r) =>
    if sepMD s then
      match takeDigits 2 r with
      | some (d, _) => some (m, d)
      | none =>
        match takeDigits 1 r with
        | some (d, _) => some (m, d)
        | none => none
    else none
  | _ => none

/-- One attempt of `(\d{4})[-年/.](\d{1,2})[-月/.](\d{1,2})` at a fixed
position; the greedy `{1,2}` month tries two digits then one, as the engine
backtracks. -/
def dateSearchAt (cs : Chars) : Option (Chars × Chars × Chars) :=
  match takeDigits 4 cs with
  | some (y, s :: r) =>
    if sepYM s then
      match monthDayN 2 r with
      | some (m, d) => some (y, m, d)
      | none =>
        match monthDayN 1 r with
        | some (m, d) => some (y, m, d)
        | none => none
    else none
  | _ => none

/-- `re.search` of the date pattern: leftmost match's groups. -/
def dateSearch : Chars → Option (Chars × Chars × Chars)
  | [] => none
  | c :: t =>
    match dateSearchAt (c :: t) with
    | some g => some g
    | none => dateSearch t

/-- Zero-padding `f"{n:02d}"`. -/
def pad2 (n : Nat) : String :=
  (if n < 10 then "0" else "") ++ toString n

/-- `format_date` (app.py:50-56). -/
def format_date (s : String) : String :=
  match dateSearch s.data with
  | some (y, m, d) => (⟨y⟩ : String) ++ "-" ++ pad2 (digitsToNat m) ++ "-" ++ pad2 (digitsToNat d)
  | none => ""

/-- `re.search(r'(\d{20})', text)` (app.py:245): the first position where
twenty consecutive digits start. -/
def find20 : Chars → Option Chars
  | [] => none
  | c :: t =>
    match takeDigits 20 (c :: t) with
    | some (ds, _) => some ds
    | none => find20 t

/-- The anchor `(?:号码|No)` of the 8-plus-digit number pattern (app.py:248);
first characters distinct, deterministic. -/
def numAnchorAt (cs : Chars) : Option Chars :=
  if "号码".data.isPrefixOf cs then some (cs.drop 2)
  else if "No".data.isPrefixOf cs then some (cs.drop 2)
  else none

/-- `re.search(r'(?:号码|No)[:|]?(\d{8,})', text)` (app.py:248).  The
optional `[:|]?` is deterministic: if the separator is present but fewer than
8 digits follow, re-trying without it faces the separator where a digit is
required, so the attempt fails either way. -/
def findAnchoredNum : Chars → Option Chars
  | [] => none
  | c :: t =>
    match numAnchorAt (c :: t) with
    | some after =>
      let body := match after with
        | x :: r => if x = ':' || x = '|' then r else after
        | [] => after
      let ds := body.takeWhile Char.isDigit
      if 8 ≤ ds.length then some ds else findAnchoredNum t
    | none => findAnchoredNum t

/-- The name character class `[一-龥()（）]` of
`extract_seller_name_smart` (app.py:189). -/
def sellerClassChar (c : Char) : Bool :=
  (0x4e00 ≤ c.toNat && c.toNat ≤ 0x9fa5) || c = '(' || c = ')' || c = '（' || c = '）'

/-- The organisational-suffix alternation of `extract_seller_name_smart`
(app.py:189), in source order. -/
def sellerSuffixes : List String :=
  ["公司", "事务所", "酒店", "旅行社", "经营部", "服务部", "分行", "支行", "馆", "店", "处", "中心"]

/-- First suffix alternative matching at a position, with its length. -/
def suffixAt (cs : Chars) : Option Nat :=
  (sellerSuffixes.find? (fun suf => suf.data.isPrefixOf cs)).map (fun suf => suf.data.length)

/-- The greedy `{2,30}` of the name pattern: try the longest class run first
(at most 30), backing off one character at a time until a suffix matches
right after it; below two characters the pattern fails. -/
def sellerKAux : Nat → Chars → Option (Nat × Nat)
  | 0, _ => none
  | 1, _ => none
  | k + 2, cs =>
    match suffixAt (cs.drop (k + 2)) with
    | some sl => some (k + 2, sl)
    | none => sellerKAux (k + 1) cs

/-- `re.findall` of the seller-name pattern (app.py:190) with fuel (the scan
position advances every step, so fuel = text length suffices); matches are
non-overlapping and the scan continues after each match. -/
def sellerScanAux : Nat → Chars → List String
  | 0, _ => []
  | f + 1, cs =>
    match cs with
    | [] => []
    | _ :: t =>
      let run := (cs.takeWhile sellerClassChar).length
      match sellerKAux (min run 30) cs with
      | some (k, sl) => (⟨cs.take (k + sl)⟩ : String) :: sellerScanAux f (cs.drop (k + sl))
      | none => sellerScanAux f t

/-- The blacklist of `extract_seller_name_smart` (app.py:191). -/
def sellerBlacklist : List String :=
  ["税务局", "财政部", "购买方", "开户行", "银行", "地址", "电话", "统一社会信用",
   "纳税人", "适用税率", "密码区", "机器编号"]

/-- `extract_seller_name_smart` (app.py:187-193).  `list(set(...))` has the
arbitrary iteration order of a Python set; it is modelled as
first-occurrence deduplication.  The order only influences which candidate
`max(..., key=len)` returns among equal-length survivors, and no theorem
below depends on such a tie. -/
def extract_seller_name_smart (s : String) : String :=
  let candidates := (sellerScanAux s.data.length s.data).eraseDups
  let filtered := candidates.filter
    (fun c => !(sellerBlacklist.any (fun b => strContains c b)) && 4 ≤ c.length)
  filtered.foldl (fun best c => if best.length < c.length then c else best) ""

/-- One extracted record.  XML records and PDF rows use different dictionary
keys in the source (`num`/`发票号码`, ...); `InvoiceVerifier.check` reads them
through `raw_info.get(k1) or raw_info.get(k2) or default`, which collapses to
plain field access on this unified shape.  The 备注 key, absent in XML
records, is modelled as the empty string (what `.get('备注', '')` returns);
the 文件名 key is read by no modelled logic and is omitted. -/
structure RawInfo where
  num : String
  date : String
  seller : String
  amount : ℚ
  note : String
deriving DecidableEq, Repr

/-- The record returned for an unreadable/scanned PDF (app.py:238-241). -/
def pureImageRec : RawInfo :=
  ⟨"", "", "", 0, "⚠️ 纯图/扫描件"⟩

/-- `extract_data_from_pdf_simple` (app.py:232-269), as a function of the
text yielded by the external PDF reader for the first page (`none` models an
absent `extract_text()` result).  `if not raw or len(raw.strip()) < 10`
collapses to the strip-length test, since an empty text strips to length 0.
Failures of the reader itself (the outer `try/except` returning `None`) are
the caller's `Option RawInfo`.  `pdf_record_body` is the non-short-circuit
branch (app.py:243-268): number, date, amount/status and seller extraction
over the normalized text, with the 无发票号 prefix added when an amount but
no number was read. -/
def pdf_record_body (r : String) : RawInfo :=
  let text := (normalize_text r).data
  let num : String :=
    match find20 text with
    | some ds => ⟨ds⟩
    | none =>
      match findAnchoredNum text with
      | some ds => ⟨ds⟩
      | none => ""
  let date : String :=
    match dateSearch text with
    | some (y, m, d) =>
      (⟨y⟩ : String) ++ "-" ++ pad2 (digitsToNat m) ++ "-" ++ pad2 (digitsToNat d)
    | none => ""
  let amtStatus := find_amount_strict (normalize_text r)
  let seller := extract_seller_name_smart (normalize_text r)
  let note :=
    if num = "" ∧ 0 < amtStatus.1 then
      (if strContains amtStatus.2 "警告" then amtStatus.2 else "无发票号-" ++ amtStatus.2)
    else amtStatus.2
  ⟨num, date, seller, amtStatus.1, note⟩

def extract_data_from_pdf_simple (raw : Option String) : RawInfo :=
  match raw with
  | none => pureImageRec
  | some r =>
    if (pyStrip r).length < 10 then pureImageRec
    else pdf_record_body r

/-- Python `float(str)` on the plain decimal forms the XML amount fields
carry: optional surrounding whitespace, optional sign, digits with an
optional fractional part.  Exponent, infinity and underscore forms are not
exercised by any claim and are modelled as absent. -/
def pyFloat (cs : Chars) : Option ℚ :=
  let cs := ((cs.dropWhile pyWS).reverse.dropWhile pyWS).reverse
  let sgn : ℚ := match cs with
    | '-' :: _ => -1
    | _ => 1
  let body := match cs with
    | '-' :: t => t
    | '+' :: t => t
    | _ => cs
  let ip := body.takeWhile Char.isDigit
  let rest := body.dropWhile Char.isDigit
  match rest with
  | [] => if ip.isEmpty then none else some (sgn * digitsToNat ip)
  | '.' :: fp =>
    if fp.all Char.isDigit ∧ ¬(ip.isEmpty ∧ fp.isEmpty) then
      some (sgn * ((digitsToNat ip : ℚ) + (digitsToNat fp : ℚ) / (10 ^ fp.length)))
    else none
  | _ => none

/-- `parse_xml_invoice_data` (app.py:210-230) as a function of the field
strings the prioritised tag-path lookups resolve to (the `g(...) or g(...)`
chains of the external structured reader).  An empty amount string yields
amount 0.0 without calling `float`; a `float` failure is caught by the
enclosing `except` and the whole record is `None`.  XML records carry no
status-note key. -/
def parse_xml_invoice_data (num dateStr seller amtStr : String) : Option RawInfo :=
  match (if amtStr = "" then some (0 : ℚ)
         else pyFloat (amtStr.data.filter (fun c => c ≠ ','))) with
  | some amt => some ⟨num, format_date dateStr, seller, amt, ""⟩
  | none => none

/-- The status note the pipeline seeds every XML result row with
(app.py:368), independent of whether the XML carried an amount. -/
def xmlRowInitialNote : String := "正常"

/-- `f"{amt:.2f}"`, the attribute-key rendering of amounts (app.py:291,312).
Inputs are exact hundredths wherever key equality matters, so half-up floor
rounding coincides with Python's formatting. -/
def fmt2 (q : ℚ) : String :=
  let n : Int := ratFloor (q * 100 + 1/2)
  let a := n.natAbs
  (if n < 0 then "-" else "") ++ toString (a / 100) ++ "." ++
    (if a % 100 < 10 then "0" else "") ++ toString (a % 100)

/-- `p_seller[:4] if len(p_seller) >= 4 else p_seller` — the conditional is
redundant, Python slicing of a shorter string already returns it whole. -/
def take4 (s : String) : String := ⟨s.data.take 4⟩

/-- The attribute key `(f"{amt:.2f}", date, short_seller)` (app.py:291). -/
def attrKey (amt : ℚ) (date seller : String) : String × String × String :=
  (fmt2 amt, date, take4 seller)

/-- The two lookup structures of `InvoiceVerifier` (app.py:275-292):
`processed_nums` as an insertion-ordered dictionary and `processed_attrs` as
a set of keys (membership is all that is ever queried, so appended
duplicates are harmless). -/
structure InvoiceVerifier where
  nums : List (String × ℚ)
  attrs : List (String × String × String)
deriving DecidableEq, Repr

/-- Python dictionary assignment `d[k] = v`: overwrite an existing key,
otherwise append. -/
def dictInsert : List (String × ℚ) → String → ℚ → List (String × ℚ)
  | [], k, v => [(k, v)]
  | (k', v') :: t, k, v =>
    if k' = k then (k, v) :: t else (k', v') :: dictInsert t k v

/-- Python dictionary lookup. -/
def lookupAmount : List (String × ℚ) → String → Option ℚ
  | [], _ => none
  | (k', v') :: t, k => if k' = k then some v' else lookupAmount t k

/-- One row of the `__init__` loop of `InvoiceVerifier` (app.py:281-292). -/
def addRow (v : InvoiceVerifier) (row : RawInfo) : InvoiceVerifier :=
  let pNum := pyStrip row.num
  let nums' := if pNum ≠ "" ∧ 6 < pNum.length then dictInsert v.nums pNum row.amount else v.nums
  { nums := nums',
    attrs := v.attrs ++ [attrKey row.amount (pyStrip row.date) (pyStrip row.seller)] }

/-- `InvoiceVerifier.__init__` (app.py:276-292) over the result rows. -/
def buildVerifier (rows : List RawInfo) : InvoiceVerifier :=
  rows.foldl addRow ⟨[], []⟩

/-- `InvoiceVerifier.check` (app.py:294-322).  In the strong check both
branches of the amount comparison return `True` (app.py:304-307), so a
number hit is decided by dictionary membership alone; when the number is
long but absent the code falls through to the weak checks.  `raw_amt % 1 !=
0` for a positive rational is exactly `den ≠ 1`. -/
def check (v : InvoiceVerifier) (info : RawInfo) : Bool :=
  let rawNum := pyStrip info.num
  let rawAmt := info.amount
  let rawDate := pyStrip info.date
  let rawSeller := pyStrip info.seller
  if rawNum ≠ "" ∧ 6 < rawNum.length ∧ (lookupAmount v.nums rawNum).isSome then true
  else if 0 < rawAmt ∧ attrKey rawAmt rawDate rawSeller ∈ v.attrs then true
  else if 0 < rawAmt ∧ rawAmt.den ≠ 1 ∧
      v.attrs.any (fun k => k.1 = fmt2 rawAmt ∧ k.2.1 = rawDate) then true
  else false

/-- The missing-file decision of the reconciliation pass (app.py:465-480):
an unparseable document is missing; a record whose note mentions 纯图 is
missing regardless of the index; otherwise the verifier decides. -/
def isMissingDoc (v : InvoiceVerifier) (info : Option RawInfo) : Bool :=
  match info with
  | none => true
  | some r => if strContains r.note "纯图" then true else !(check v r)

/-- A trip-pool entry (app.py:352). -/
structure PoolEntry where
  path : String
  amount : ℚ
  folder : String
  used : Bool
deriving DecidableEq, Repr

/-- The matching loop `for t in [x for x in trip_pool if x['folder'] ==
folder and not x['used']]: if cond: matched_trip = t; t['used'] = True;
break` (app.py:382-384 and 412-416): first eligible entry satisfying `cond`
is selected and its `used` flag set; returns its position and the updated
pool. -/
def match_trip (folder : String) (cond : PoolEntry → Bool) :
    List PoolEntry → Option Nat × List PoolEntry
  | [] => (none, [])
  | e :: rest =>
    if e.folder = folder ∧ e.used = false ∧ cond e = true then
      (some 0, { e with used := true } :: rest)
    else
      let r := match_trip folder cond rest
      (r.1.map Nat.succ, e :: r.2)

/-- The amount test of the XML phase (app.py:383): no positivity guard. -/
def xmlCond (amt : ℚ) (e : PoolEntry) : Bool :=
  decide (|e.amount - amt| < 1/20)

/-- The amount test of the PDF phase (app.py:415): guarded by
`inv['amount'] > 0`. -/
def pdfCond (amt : ℚ) (e : PoolEntry) : Bool :=
  decide (0 < amt) && decide (|e.amount - amt| < 1/20)

def match_trip_xml (folder : String) (amt : ℚ) (pool : List PoolEntry) :
    Option Nat × List PoolEntry :=
  match_trip folder (xmlCond amt) pool

def match_trip_pdf (folder : String) (amt : ℚ) (pool : List PoolEntry) :
    Option Nat × List PoolEntry :=
  match_trip folder (pdfCond amt) pool

/-- One principal document's matching call: its folder, its amount, and
whether it is processed in the PDF phase (positivity guard) or the XML
phase. -/
structure TripQuery where
  folder : String
  amount : ℚ
  posGuard : Bool
deriving DecidableEq, Repr

def queryCond (q : TripQuery) (e : PoolEntry) : Bool :=
  if q.posGuard then pdfCond q.amount e else xmlCond q.amount e

/-- The whole run's sequence of matching calls over the shared mutable trip
pool (phase A, app.py:362-402, then phase B, app.py:405-434, both
instantiate this). -/
def runMatches : List TripQuery → List PoolEntry → List (Option Nat) × List PoolEntry
  | [], pool => ([], pool)
  | q :: qs, pool =>
    let step := match_trip q.folder (queryCond q) pool
    let rest := runMatches qs step.2
    (step.1 :: rest.1, rest.2)

/-- `is_trip_file` (app.py:195-204). -/
def is_trip_file (filename : String) (text : Option String) : Bool :=
  let fn := lowerStr filename
  if strContains fn "行程" || strContains fn "trip" || strContains fn "报销" then
    match text with
    | some t =>
      if t ≠ "" then
        let clean := normalize_text t
        if strContains clean "发票代码" || strContains clean "发票号码" ||
            strContains clean "电子发票" then false
        else true
      else true
    | none => true
  else false

/-- Does `label` occur in `cs` immediately followed by at least eight
digits?  Used only by the spec-side classifier below. -/
def labelThen8Digits : Chars → Chars → Bool
  | [], _ => false
  | c :: t, label =>
    (label.isPrefixOf (c :: t) &&
      8 ≤ (((c :: t).drop label.length).takeWhile Char.isDigit).length) ||
    labelThen8Digits t label

/-- Modelled from the spec (§4.4), for comparison with `is_trip_file`: true
iff the filename contains a trip/reimbursement keyword and the normalized
text does not contain a strong invoice marker — an invoice-number label
immediately followed by 8+ digits, or a total-including-tax label
(价税合计). -/
def spec_is_aux_receipt (filename : String) (text : Option String) : Bool :=
  let fn := lowerStr filename
  (strContains fn "行程" || strContains fn "trip" || strContains fn "报销") &&
  (match text with
   | some t =>
     let clean := normalize_text t
     !(labelThen8Digits clean.data "发票号码".data || strContains clean "价税合计")
   | none => true)

/-! ### Helper lemmas: verifier index construction -/

theorem lookupAmount_dictInsert_self (l : List (String × ℚ)) (k : String) (v : ℚ) :
    lookupAmount (dictInsert l k v) k = some v := by
  induction l with
  | nil => simp [dictInsert, lookupAmount]
  | cons p t ih =>
    by_cases h : p.1 = k
    · simp [dictInsert, h, lookupAmount]
    · simp [dictInsert, h, lookupAmount, ih]

theorem lookupAmount_isSome_dictInsert (l : List (String × ℚ)) (k k' : String) (v : ℚ)
    (h : (lookupAmount l k).isSome = true) :
    (lookupAmount (dictInsert l k' v) k).isSome = true := by
  induction l with
  | nil => simp [lookupAmount] at h
  | cons p t ih =>
    rcases p with ⟨pk, pv⟩
    by_cases hk : pk = k'
    · subst hk
      simp only [dictInsert, if_pos rfl]
      by_cases hkk : pk = k
      · simp [lookupAmount, hkk]
      · simp only [lookupAmount, if_neg hkk] at h ⊢
        exact h
    · simp only [dictInsert, if_neg hk]
      by_cases hpk : pk = k
      · simp [lookupAmount, hpk]
      · simp only [lookupAmount, if_neg hpk] at h ⊢
        exact ih h

theorem addRow_nums_eq (v : InvoiceVerifier) (row : RawInfo) :
    (addRow v row).nums =
      if pyStrip row.num ≠ "" ∧ 6 < (pyStrip row.num).length then
        dictInsert v.nums (pyStrip row.num) row.amount
      else v.nums := rfl

theorem addRow_attrs_eq (v : InvoiceVerifier) (row : RawInfo) :
    (addRow v row).attrs =
      v.attrs ++ [attrKey row.amount (pyStrip row.date) (pyStrip row.seller)] := rfl

theorem addRow_nums_isSome (v : InvoiceVerifier) (row : RawInfo) (k : String)
    (h : (lookupAmount v.nums k).isSome = true) :
    (lookupAmount (addRow v row).nums k).isSome = true := by
  rw [addRow_nums_eq]
  by_cases hc : pyStrip row.num ≠ "" ∧ 6 < (pyStrip row.num).length
  · rw [if_pos hc]
    exact lookupAmount_isSome_dictInsert v.nums k (pyStrip row.num) row.amount h
  · rw [if_neg hc]
    exact h

theorem foldl_addRow_nums_isSome (rows : List RawInfo) (v : InvoiceVerifier) (k : String)
    (h : (lookupAmount v.nums k).isSome = true) :
    (lookupAmount (rows.foldl addRow v).nums k).isSome = true := by
  induction rows generalizing v with
  | nil => simpa using h
  | cons row t ih => exact ih (addRow v row) (addRow_nums_isSome v row k h)

theorem addRow_attrs_mem (v : InvoiceVerifier) (row : RawInfo)
    (x : String × String × String) (h : x ∈ v.attrs) :
    x ∈ (addRow v row).attrs := by
  rw [addRow_attrs_eq]
  exact List.mem_append.mpr (Or.inl h)

theorem foldl_addRow_attrs_mem (rows : List RawInfo) (v : InvoiceVerifier)
    (x : String × String × String) (h : x ∈ v.attrs) :
    x ∈ (rows.foldl addRow v).attrs := by
  induction rows generalizing v with
  | nil => simpa using h
  | cons row t ih => exact ih (addRow v row) (addRow_attrs_mem v row x h)

theorem build_nums_isSome (rows : List RawInfo) (r : RawInfo) (v : InvoiceVerifier)
    (hr : r ∈ rows) (hlen : 6 < (pyStrip r.num).length) :
    (lookupAmount ((rows.foldl addRow v)).nums (pyStrip r.num)).isSome = true := by
  induction rows generalizing v with
  | nil => cases hr
  | cons row t ih =>
    rcases List.mem_cons.mp hr with h | h
    · subst h
      refine foldl_addRow_nums_isSome t (addRow v r) (pyStrip r.num) ?_
      have hne : pyStrip r.num ≠ "" := by
        intro he
        rw [he] at hlen
        simp at hlen
      rw [addRow_nums_eq, if_pos ⟨hne, hlen⟩, lookupAmount_dictInsert_self]
      rfl
    · exact ih (addRow v row) h

theorem build_attrs_mem (rows : List RawInfo) (r : RawInfo) (v : InvoiceVerifier)
    (hr : r ∈ rows) :
    attrKey r.amount (pyStrip r.date) (pyStrip r.seller) ∈ (rows.foldl addRow v).attrs := by
  induction rows generalizing v with
  | nil => cases hr
  | cons row t ih =>
    rcases List.mem_cons.mp hr with h | h
    · subst h
      refine foldl_addRow_attrs_mem t (addRow v r) _ ?_
      rw [addRow_attrs_eq]
      exact List.mem_append.mpr (Or.inr (List.mem_singleton.mpr rfl))
    · exact ih (addRow v row) h

/-- The strong check of `check`: a dictionary hit on a long stripped number
returns true. -/
theorem check_of_number_hit (v : InvoiceVerifier) (r : RawInfo)
    (h1 : pyStrip r.num ≠ "") (h2 : 6 < (pyStrip r.num).length)
    (h3 : (lookupAmount v.nums (pyStrip r.num)).isSome = true) :
    check v r = true := by
  unfold check
  rw [if_pos ⟨h1, h2, h3⟩]

/-! ### Claim theorems C2, C3 -/

/-- C3: a candidate whose stripped invoice number is present, longer than six
characters, and found in the `nums` dictionary passes `check` whatever its
amount is — the strong check returns true in both branches of the amount
comparison, so a number match is never overridden by an amount mismatch. -/
theorem C3_number_match_authoritative (v : InvoiceVerifier) (r : RawInfo)
    (h1 : pyStrip r.num ≠ "") (h2 : 6 < (pyStrip r.num).length)
    (h3 : (lookupAmount v.nums (pyStrip r.num)).isSome = true) :
    check v r = true :=
  check_of_number_hit v r h1 h2 h3

/-- Witness for C3: the index stores number 12345678 with amount 100, the
candidate carries the same number with amount 999, and `check` still accepts
it. -/
theorem C3_witness :
    check (buildVerifier [⟨"12345678", "2024-01-01", "北京公司", 100, ""⟩])
      ⟨"12345678", "", "", 999, ""⟩ = true :=
  C3_number_match_authoritative _ _ (by decide) (by decide) (by decide)

/-- C2 fails as stated: reflexivity of `check` does not hold for every row of
every row set.  A row whose invoice number is empty and whose amount is 0
skips the strong check (number too short), the weak check (`amount > 0`
fails), and the fallback, so `check` rejects the very row the index was built
from. -/
theorem C2_counterexample :
    (⟨"", "", "", 0, ""⟩ : RawInfo) ∈ [(⟨"", "", "", 0, ""⟩ : RawInfo)] ∧
    check (buildVerifier [⟨"", "", "", 0, ""⟩]) ⟨"", "", "", 0, ""⟩ = false := by
  exact ⟨by decide, by decide⟩

/-- C2 (amended): `check` is true for any record present verbatim in the rows
the index was built from, provided the record's stripped invoice number is
longer than six characters or its amount is positive. -/
theorem C2_reflexivity_amended (rows : List RawInfo) (r : RawInfo) (hr : r ∈ rows)
    (h : 6 < (pyStrip r.num).length ∨ 0 < r.amount) :
    check (buildVerifier rows) r = true := by
  rcases h with hlen | hamt
  · have hne : pyStrip r.num ≠ "" := by
      intro he
      rw [he] at hlen
      simp at hlen
    exact check_of_number_hit _ r hne hlen (build_nums_isSome rows r ⟨[], []⟩ hr hlen)
  · unfold check
    by_cases hstrong : pyStrip r.num ≠ "" ∧ 6 < (pyStrip r.num).length ∧
        (lookupAmount (buildVerifier rows).nums (pyStrip r.num)).isSome = true
    · rw [if_pos hstrong]
    · rw [if_neg hstrong,
        if_pos ⟨hamt, build_attrs_mem rows r ⟨[], []⟩ hr⟩]

/-- Witness for C2 (amended): a one-row set with a long number is recognised
by the index built from it. -/
theorem C2_witness :
    check (buildVerifier [⟨"12345678", "2024-01-01", "北京公司", 100, "正常"⟩])
      ⟨"12345678", "2024-01-01", "北京公司", 100, "正常"⟩ = true :=
  C2_reflexivity_amended _ _ (by decide) (Or.inl (by decide))

/-! ### Claim C4: unreadable PDFs -/

theorem isMissingDoc_pureImage (v : InvoiceVerifier) :
    isMissingDoc v (some pureImageRec) = true := by
  show (if strContains pureImageRec.note "纯图" = true then true else !check v pureImageRec) = true
  rw [if_pos (by decide : strContains pureImageRec.note "纯图" = true)]

/-- C4 (amended): when the external reader yields no text, or text whose
whitespace-stripped form is shorter than ten characters, extraction
short-circuits to the image-only record (amount 0, empty fields, 纯图 note),
and the reconciliation pass reports such a document missing whatever the
verification index contains. -/
theorem C4_short_text_amended (raw : Option String)
    (h : raw = none ∨ (pyStrip (raw.getD "")).length < 10) :
    extract_data_from_pdf_simple raw = pureImageRec ∧
    ∀ v : InvoiceVerifier, isMissingDoc v (some (extract_data_from_pdf_simple raw)) = true := by
  have hrec : extract_data_from_pdf_simple raw = pureImageRec := by
    cases raw with
    | none => rfl
    | some r =>
      rcases h with h | h
      · simp at h
      · show (if (pyStrip r).length < 10 then pureImageRec else _) = pureImageRec
        rw [if_pos (by simpa using h)]
  exact ⟨hrec, fun v => by rw [hrec]; exact isMissingDoc_pureImage v⟩

/-- C4 fails as stated: the short-circuit threshold is measured on the
whitespace-stripped raw text, before normalization.  The text `a       b c`
strips to 11 characters but normalizes to 3, so a document shorter than ten
characters after normalization is still processed by the full extractor and
ends with the no-amount warning note, not the image-only status. -/
theorem C4_counterexample :
    10 ≤ (pyStrip "a       b c").length ∧
    (normalize_text "a       b c").length < 10 ∧
    extract_data_from_pdf_simple (some "a       b c") =
      ⟨"", "", "", 0, "警告:未读到金额"⟩ ∧
    ("警告:未读到金额" : String) ≠ pureImageRec.note := by decide

/-- Witness for C4 (amended) at a concrete three-character text. -/
theorem C4_witness :
    extract_data_from_pdf_simple (some "短文本") = pureImageRec ∧
    ∀ v : InvoiceVerifier,
      isMissingDoc v (some (extract_data_from_pdf_simple (some "短文本"))) = true :=
  C4_short_text_amended (some "短文本") (Or.inr (by decide))

/-! ### Claim C8: the numeral converter -/

theorem sectionStep_zero (c : Char) (h : cnNumVal c = none) :
    sectionStep ⟨0, 0, 0⟩ c = ⟨0, 0, 0⟩ := by
  simp only [sectionStep, h]
  cases hu : cnUnitVal c with
  | none => rfl
  | some u =>
    simp only [hu]
    split <;> simp [SecState.mk.injEq]

theorem foldl_sectionStep_zero (l : Chars) (h : ∀ c ∈ l, cnNumVal c = none) :
    l.foldl sectionStep ⟨0, 0, 0⟩ = ⟨0, 0, 0⟩ := by
  induction l with
  | nil => rfl
  | cons c t ih =>
    rw [List.foldl_cons, sectionStep_zero c (h c (List.mem_cons_self c t))]
    exact ih (fun x hx => h x (List.mem_cons_of_mem c hx))

theorem parse_section_zero (l : Chars) (h : ∀ c ∈ l, cnNumVal c = none) :
    parse_section l = 0 := by
  unfold parse_section
  rw [foldl_sectionStep_zero l h]
  norm_num

theorem decimalStep_zero (c : Char) (h : cnNumVal c = none) :
    decimalStep ⟨0, 0⟩ c = ⟨0, 0⟩ := by
  simp only [decimalStep, h]
  by_cases h1 : c = '角'
  · simp [h1, DecState.mk.injEq]
  · by_cases h2 : c = '分' <;> simp [h1, h2, DecState.mk.injEq]

theorem foldl_decimalStep_zero (l : Chars) (h : ∀ c ∈ l, cnNumVal c = none) :
    l.foldl decimalStep ⟨0, 0⟩ = ⟨0, 0⟩ := by
  induction l with
  | nil => rfl
  | cons c t ih =>
    rw [List.foldl_cons, decimalStep_zero c (h c (List.mem_cons_self c t))]
    exact ih (fun x hx => h x (List.mem_cons_of_mem c hx))

theorem parse_decimal_zero (l : Chars) (h : ∀ c ∈ l, cnNumVal c = none) :
    parse_decimal l = 0 := by
  unfold parse_decimal
  rw [foldl_decimalStep_zero l h]

/-- C8: the numeral converter returns 283.81 on 贰佰捌拾叁圆捌角壹分, 0 on the
empty string, and 0 on any string containing no digit glyph of the CN_NUM
table (the malformed inputs); being a total Lean function of its string
argument, it raises nothing. -/
theorem C8_numeral_converter :
    cn_upper_to_float "贰佰捌拾叁圆捌角壹分" = 28381 / 100 ∧
    cn_upper_to_float "" = 0 ∧
    ∀ s : String, (∀ c ∈ s.data, cnNumVal c = none) → cn_upper_to_float s = 0 := by
  refine ⟨by decide, by decide, fun s h => ?_⟩
  unfold cn_upper_to_float
  by_cases hs : s = ""
  · rw [if_pos hs]
  · rw [if_neg hs]
    have h1 : ∀ c ∈ s.data.takeWhile (fun c => !cnSep c), cnNumVal c = none :=
      fun c hc => h c ((List.takeWhile_sublist _).subset hc)
    have h2 : ∀ c ∈ ((s.data.dropWhile (fun c => !cnSep c)).drop 1).takeWhile
        (fun c => !cnSep c), cnNumVal c = none := by
      intro c hc
      exact h c ((((List.takeWhile_sublist _).trans
        ((List.drop_sublist 1 _).trans (List.dropWhile_sublist _))).subset) hc)
    show round2 (parse_section (s.data.takeWhile (fun c => !cnSep c)) +
      parse_decimal (((s.data.dropWhile (fun c => !cnSep c)).drop 1).takeWhile
        (fun c => !cnSep c))) = 0
    rw [parse_section_zero _ h1, parse_decimal_zero _ h2]
    have h0 : (0 : ℚ) + 0 = 0 := by norm_num
    rw [h0]
    decide

/-- Witness for C8 at the malformed input `abc`. -/
theorem C8_witness : cn_upper_to_float "abc" = 0 :=
  C8_numeral_converter.2.2 "abc" (by decide)

/-! ### Helper lemmas: the matching loop -/

theorem match_trip_fst_none_iff (folder : String) (cond : PoolEntry → Bool)
    (pool : List PoolEntry) :
    (match_trip folder cond pool).1 = none ↔
      ∀ e ∈ pool, ¬(e.folder = folder ∧ e.used = false ∧ cond e = true) := by
  induction pool with
  | nil => simp [match_trip]
  | cons e rest ih =>
    by_cases h : e.folder = folder ∧ e.used = false ∧ cond e = true
    · simp only [match_trip, if_pos h]
      constructor
      · intro hh
        exact absurd hh (Option.some_ne_none 0)
      · intro hall
        exact absurd h (hall e (List.mem_cons_self e rest))
    · simp only [match_trip, if_neg h]
      rw [Option.map_eq_none', ih]
      constructor
      · intro hall e' he'
        rcases List.mem_cons.mp he' with rfl | hmem
        · exact h
        · exact hall e' hmem
      · intro hall e' he'
        exact hall e' (List.mem_cons_of_mem e he')

theorem match_trip_fst_some (folder : String) (cond : PoolEntry → Bool)
    (pool : List PoolEntry) (i : Nat)
    (h : (match_trip folder cond pool).1 = some i) :
    ∃ e, pool[i]? = some e ∧ e.folder = folder ∧ e.used = false ∧ cond e = true ∧
      ∀ j, j < i → ∀ e', pool[j]? = some e' →
        ¬(e'.folder = folder ∧ e'.used = false ∧ cond e' = true) := by
  induction pool generalizing i with
  | nil => simp [match_trip] at h
  | cons e rest ih =>
    by_cases hg : e.folder = folder ∧ e.used = false ∧ cond e = true
    · simp only [match_trip, if_pos hg] at h
      have hi : i = 0 := by
        injection h with h
        exact h.symm
      subst hi
      refine ⟨e, by simp, hg.1, hg.2.1, hg.2.2, ?_⟩
      intro j hj
      exact absurd hj (Nat.not_lt_zero j)
    · simp only [match_trip, if_neg hg] at h
      rcases Option.map_eq_some'.mp h with ⟨i', hi', rfl⟩
      rcases ih i' hi' with ⟨e', he', hf, hu, hc, hmin⟩
      refine ⟨e', by simpa using he', hf, hu, hc, ?_⟩
      intro j hj e'' he''
      cases j with
      | zero =>
        have : e'' = e := by
          simp only [List.getElem?_cons_zero] at he''
          injection he'' with he''
          exact he''.symm
        subst this
        exact hg
      | succ j' =>
        exact hmin j' (Nat.lt_of_succ_lt_succ hj) e'' (by simpa using he'')

theorem match_trip_snd_other (folder : String) (cond : PoolEntry → Bool)
    (pool : List PoolEntry) (j : Nat)
    (h : (match_trip folder cond pool).1 ≠ some j) :
    (match_trip folder cond pool).2[j]? = pool[j]? := by
  induction pool generalizing j with
  | nil => simp [match_trip]
  | cons e rest ih =>
    by_cases hg : e.folder = folder ∧ e.used = false ∧ cond e = true
    · simp only [match_trip, if_pos hg] at h ⊢
      cases j with
      | zero => exact absurd rfl h
      | succ j' => simp [List.getElem?_cons_succ]
    · simp only [match_trip, if_neg hg] at h ⊢
      cases j with
      | zero => simp
      | succ j' =>
        have h' : (match_trip folder cond rest).1 ≠ some j' := by
          intro hh
          exact h (by rw [hh]; rfl)
        simpa [List.getElem?_cons_succ] using ih j' h'

theorem match_trip_snd_hit (folder : String) (cond : PoolEntry → Bool)
    (pool : List PoolEntry) (i : Nat)
    (h : (match_trip folder cond pool).1 = some i) :
    ∃ e, pool[i]? = some e ∧ e.used = false ∧
      (match_trip folder cond pool).2[i]? = some { e with used := true } := by
  induction pool generalizing i with
  | nil => simp [match_trip] at h
  | cons e rest ih =>
    by_cases hg : e.folder = folder ∧ e.used = false ∧ cond e = true
    · simp only [match_trip, if_pos hg] at h ⊢
      have hi : i = 0 := by
        injection h with h
        exact h.symm
      subst hi
      exact ⟨e, by simp, hg.2.1, by simp⟩
    · simp only [match_trip, if_neg hg] at h ⊢
      rcases Option.map_eq_some'.mp h with ⟨i', hi', rfl⟩
      rcases ih i' hi' with ⟨e', he', hu, hsnd⟩
      exact ⟨e', by simpa using he', hu, by simpa using hsnd⟩

/-! ### Helper lemmas: a whole run of matching calls -/

theorem runMatches_snd_mono (qs : List TripQuery) :
    ∀ (pool : List PoolEntry) (i : Nat) (e e' : PoolEntry),
      pool[i]? = some e → (runMatches qs pool).2[i]? = some e' →
      e.used = true → e'.used = true := by
  induction qs with
  | nil =>
    intro pool i e e' h1 h2 hu
    simp only [runMatches] at h2
    rw [h1] at h2
    injection h2 with h2
    rw [← h2]
    exact hu
  | cons q qs ih =>
    intro pool i e e' h1 h2 hu
    simp only [runMatches] at h2
    by_cases hstep : (match_trip q.folder (queryCond q) pool).1 = some i
    · rcases match_trip_snd_hit _ _ _ _ hstep with ⟨e0, he0, hu0, hsnd⟩
      exact ih _ i _ e' hsnd h2 rfl
    · have heq := match_trip_snd_other _ _ _ _ hstep
      exact ih _ i e e' (heq.trans h1) h2 hu

theorem runMatches_not_rematch (qs : List TripQuery) :
    ∀ (pool : List PoolEntry) (i : Nat) (e : PoolEntry),
      pool[i]? = some e → e.used = true → some i ∉ (runMatches qs pool).1 := by
  induction qs with
  | nil =>
    intro pool i e h1 hu
    simp [runMatches]
  | cons q qs ih =>
    intro pool i e h1 hu hmem
    simp only [runMatches] at hmem
    rcases List.mem_cons.mp hmem with heq | hmem'
    · rcases match_trip_snd_hit _ _ _ _ heq.symm with ⟨e0, he0, hu0, _⟩
      rw [h1] at he0
      injection he0 with he0
      rw [← he0] at hu0
      rw [hu] at hu0
      exact absurd hu0 (by decide)
    · by_cases hstep : (match_trip q.folder (queryCond q) pool).1 = some i
      · rcases match_trip_snd_hit _ _ _ _ hstep with ⟨e0, he0, hu0, hsnd⟩
        exact ih _ i _ hsnd rfl hmem'
      · have heq2 := match_trip_snd_other _ _ _ _ hstep
        exact ih _ i e (heq2.trans h1) hu hmem'

theorem runMatches_fst_nodup (qs : List TripQuery) :
    ∀ pool : List PoolEntry, ((runMatches qs pool).1.filterMap id).Nodup := by
  induction qs with
  | nil =>
    intro pool
    simp [runMatches]
  | cons q qs ih =>
    intro pool
    simp only [runMatches]
    cases hstep : (match_trip q.folder (queryCond q) pool).1 with
    | none => simpa [List.filterMap_cons] using ih _
    | some i =>
      simp only [List.filterMap_cons, id]
      refine List.nodup_cons.mpr ⟨?_, ih _⟩
      intro hmem
      rw [List.mem_filterMap] at hmem
      rcases hmem with ⟨a, ha, haid⟩
      have ha' : a = some i := haid
      rw [ha'] at ha
      rcases match_trip_snd_hit _ _ _ _ hstep with ⟨e0, he0, hu0, hsnd⟩
      exact runMatches_not_rematch qs _ i _ hsnd rfl ha

theorem runMatches_flip (qs : List TripQuery) :
    ∀ (pool : List PoolEntry) (i : Nat) (e e' : PoolEntry),
      pool[i]? = some e → (runMatches qs pool).2[i]? = some e' → e'.used = true →
      e.used = true ∨ some i ∈ (runMatches qs pool).1 := by
  induction qs with
  | nil =>
    intro pool i e e' h1 h2 hu
    simp only [runMatches] at h2
    rw [h1] at h2
    injection h2 with h2
    rw [h2]
    exact Or.inl hu
  | cons q qs ih =>
    intro pool i e e' h1 h2 hu
    simp only [runMatches] at h2 ⊢
    by_cases hstep : (match_trip q.folder (queryCond q) pool).1 = some i
    · exact Or.inr (List.mem_cons.mpr (Or.inl hstep.symm))
    · have heq := match_trip_snd_other _ _ _ _ hstep
      rcases ih _ i e e' (heq.trans h1) h2 hu with hl | hr
      · exact Or.inl hl
      · exact Or.inr (List.mem_cons.mpr (Or.inr hr))

/-! ### Claim theorems C1, C7 -/

/-- C7: over any run of matching calls, a pool entry's `used` flag is
monotone (never reset), it can become true only through a match event, and
the matched indices of a run are pairwise distinct — no auxiliary entry is
ever paired with two principal documents. -/
theorem C7_used_discipline (qs : List TripQuery) (pool : List PoolEntry) :
    (∀ i e e', pool[i]? = some e → (runMatches qs pool).2[i]? = some e' →
      (e.used = true → e'.used = true) ∧
      (e'.used = true → e.used = true ∨ some i ∈ (runMatches qs pool).1)) ∧
    ((runMatches qs pool).1.filterMap id).Nodup :=
  ⟨fun i e e' h1 h2 =>
    ⟨runMatches_snd_mono qs pool i e e' h1 h2,
     runMatches_flip qs pool i e e' h1 h2⟩,
   runMatches_fst_nodup qs pool⟩

/-- Witness for C7: a one-query run over a one-entry pool; the matched index
list is duplicate-free and the entry's flag became true through the recorded
match event. -/
theorem C7_witness :
    ((runMatches [⟨"f", 10, true⟩] [⟨"a", 10, "f", false⟩]).1.filterMap id).Nodup ∧
    ((⟨"a", 10, "f", false⟩ : PoolEntry).used = true ∨
      some 0 ∈ (runMatches [⟨"f", 10, true⟩] [⟨"a", 10, "f", false⟩]).1) := by
  refine ⟨(C7_used_discipline [⟨"f", 10, true⟩] [⟨"a", 10, "f", false⟩]).2, ?_⟩
  exact ((C7_used_discipline [⟨"f", 10, true⟩] [⟨"a", 10, "f", false⟩]).1 0
    ⟨"a", 10, "f", false⟩ ⟨"a", 10, "f", true⟩ (by decide) (by decide)).2 (by decide)

/-- C1 fails as stated: the run pipeline's matcher implements no
filename-similarity strategy and no scope-uniqueness fallback.  Here exactly
one unused candidate shares the principal's folder, its path even equals the
principal's filename, and the principal amount is positive, yet — the amounts
differing by more than 0.05 — both the PDF-phase and the XML-phase matching
loops report no match, where the claimed strategy chain would have paired the
unique candidate. -/
theorem C1_counterexample :
    (0 : ℚ) < 5 ∧
    (([⟨"inv_001.pdf", 100, "scope0", false⟩] : List PoolEntry).filter
      (fun e => decide (e.folder = "scope0") && !e.used)).length = 1 ∧
    (match_trip_pdf "scope0" 5 [⟨"inv_001.pdf", 100, "scope0", false⟩]).1 = none ∧
    (match_trip_xml "scope0" 5 [⟨"inv_001.pdf", 100, "scope0", false⟩]).1 = none := by
  decide

/-- C1 (amended): the matcher restricts to unused entries of the principal's
folder and applies a single strategy — first candidate within 0.05 of the
principal amount wins — with the positivity guard present in the PDF phase
and absent in the XML phase; it reports no match exactly when no such
candidate exists. -/
theorem C1_amount_only_amended (folder : String) (amt : ℚ) (pool : List PoolEntry) :
    ((match_trip_pdf folder amt pool).1 = none ↔
      ∀ e ∈ pool, ¬(e.folder = folder ∧ e.used = false ∧ 0 < amt ∧
        |e.amount - amt| < 1/20)) ∧
    (∀ i, (match_trip_pdf folder amt pool).1 = some i →
      ∃ e, pool[i]? = some e ∧ e.folder = folder ∧ e.used = false ∧ 0 < amt ∧
        |e.amount - amt| < 1/20 ∧
        ∀ j, j < i → ∀ e', pool[j]? = some e' →
          ¬(e'.folder = folder ∧ e'.used = false ∧ |e'.amount - amt| < 1/20)) ∧
    ((match_trip_xml folder amt pool).1 = none ↔
      ∀ e ∈ pool, ¬(e.folder = folder ∧ e.used = false ∧ |e.amount - amt| < 1/20)) := by
  refine ⟨?_, ?_, ?_⟩
  · have h1 := match_trip_fst_none_iff folder (pdfCond amt) pool
    simpa [pdfCond, Bool.and_eq_true, decide_eq_true_eq, and_assoc] using h1
  · intro i hi
    rcases match_trip_fst_some folder (pdfCond amt) pool i hi with
      ⟨e, he, hf, hu, hc, hmin⟩
    have hc' : 0 < amt ∧ |e.amount - amt| < 1/20 := by
      simpa [pdfCond, Bool.and_eq_true, decide_eq_true_eq] using hc
    refine ⟨e, he, hf, hu, hc'.1, hc'.2, ?_⟩
    intro j hj e' he' hbad
    refine hmin j hj e' he' ⟨hbad.1, hbad.2.1, ?_⟩
    simp [pdfCond, Bool.and_eq_true, decide_eq_true_eq]
    exact ⟨hc'.1, hbad.2.2⟩
  · have h1 := match_trip_fst_none_iff folder (xmlCond amt) pool
    simpa [xmlCond, decide_eq_true_eq] using h1

/-- Witness for C1 (amended): the PDF-phase matcher selects the first
in-scope unused candidate within tolerance. -/
theorem C1_witness :
    ∃ e, ([⟨"a", 10, "f", false⟩] : List PoolEntry)[0]? = some e ∧
      e.folder = "f" ∧ e.used = false ∧ (0 : ℚ) < 10 ∧ |e.amount - 10| < 1/20 ∧
      ∀ j, j < 0 → ∀ e', ([⟨"a", 10, "f", false⟩] : List PoolEntry)[j]? = some e' →
        ¬(e'.folder = "f" ∧ e'.used = false ∧ |e'.amount - 10| < 1/20) :=
  (C1_amount_only_amended "f" 10 [⟨"a", 10, "f", false⟩]).2.1 0 (by decide)

/-! ### Helper lemmas: amount extraction bounds -/

theorem findUpperAmount_pos (t : Chars) (u : ℚ) (h : findUpperAmount t = some u) :
    0 < u := by
  unfold findUpperAmount at h
  cases hs : upperSearch t with
  | none =>
    rw [hs] at h
    exact absurd h (by simp)
  | some cn =>
    rw [hs] at h
    replace h : (if 1 < cn.length ∧ 0 < cn_upper_to_float ⟨cn⟩ then
        some (cn_upper_to_float ⟨cn⟩) else none) = some u := h
    by_cases hc : 1 < cn.length ∧ 0 < cn_upper_to_float ⟨cn⟩
    · rw [if_pos hc] at h
      injection h with h
      rw [← h]
      exact hc.2
    · rw [if_neg hc] at h
      exact absurd h (by simp)

theorem pickLower_bounds (L : List Chars) (l : ℚ) (h : pickLower L = some l) :
    1/100 ≤ l ∧ l ≤ 5000000 := by
  induction L with
  | nil => simp [pickLower] at h
  | cons m rest ih =>
    simp only [pickLower] at h
    by_cases hb : 1/100 ≤ moneyValue m ∧ moneyValue m ≤ 5000000
    · rw [if_pos hb] at h
      injection h with h
      rw [← h]
      exact hb
    · rw [if_neg hb] at h
      exact ih h

theorem findLowerAmount_pos (t : Chars) (l : ℚ) (h : findLowerAmount t = some l) :
    0 < l :=
  lt_of_lt_of_le (by norm_num) (pickLower_bounds (lowerScan t) l h).1

/-- Evaluation of `find_amount_strict` when both strategies succeed. -/
theorem find_amount_strict_both (text : String) (u l : ℚ) (h0 : text ≠ "")
    (hu : findUpperAmount text.data = some u) (hl : findLowerAmount text.data = some l) :
    find_amount_strict text =
      if 1/10 < |u - l| then (u, discrepancyNote u l) else (u, "正常") := by
  unfold find_amount_strict
  rw [if_neg h0, hu, hl]

/-- Evaluation of `find_amount_strict` when only the authoritative numeral
strategy succeeds. -/
theorem find_amount_strict_upper_only (text : String) (u : ℚ) (h0 : text ≠ "")
    (hu : findUpperAmount text.data = some u) (hl : findLowerAmount text.data = none) :
    find_amount_strict text = (u, "正常 (无小写)") := by
  unfold find_amount_strict
  rw [if_neg h0, hu, hl]

/-- Evaluation of `find_amount_strict` when only the secondary digit
strategy succeeds. -/
theorem find_amount_strict_lower_only (text : String) (l : ℚ) (h0 : text ≠ "")
    (hu : findUpperAmount text.data = none) (hl : findLowerAmount text.data = some l) :
    find_amount_strict text = (l, "使用小写 (未读到大写)") := by
  unfold find_amount_strict
  rw [if_neg h0, hu, hl]

/-- Evaluation of `find_amount_strict` when neither strategy succeeds on a
nonempty text. -/
theorem find_amount_strict_neither (text : String) (h0 : text ≠ "")
    (hu : findUpperAmount text.data = none) (hl : findLowerAmount text.data = none) :
    find_amount_strict text = (0, "警告:未读到金额") := by
  unfold find_amount_strict
  rw [if_neg h0, hu, hl]

/-! ### Claim theorems C5, C6 -/

/-- C5 fails as stated: on the empty text neither amount strategy finds
anything, yet the returned status is the dedicated blank-content string, not
the no-amount-found status used for every other neither-found text. -/
theorem C5_counterexample :
    findUpperAmount ("" : String).data = none ∧
    findLowerAmount ("" : String).data = none ∧
    find_amount_strict "" = (0, "空白内容") ∧
    ("空白内容" : String) ≠ "警告:未读到金额" := by decide

/-- C5 (amended): the decision step of `find_amount_strict`.  When both the
authoritative and secondary amounts are found they are compared against the
0.1 tolerance, the authoritative amount being returned either with the
discrepancy note naming both values or with the normal status; a secondary
amount alone is returned with the degraded status; on nonempty text with
neither found the no-amount warning is returned (the empty text short-circuits
to the distinct blank-content status before either strategy runs). -/
theorem C5_decision_amended (text : String) :
    (∀ u l, findUpperAmount text.data = some u → findLowerAmount text.data = some l →
      1/10 < |u - l| → find_amount_strict text = (u, discrepancyNote u l)) ∧
    (∀ u l, findUpperAmount text.data = some u → findLowerAmount text.data = some l →
      |u - l| ≤ 1/10 → find_amount_strict text = (u, "正常")) ∧
    (∀ l, findUpperAmount text.data = none → findLowerAmount text.data = some l →
      find_amount_strict text = (l, "使用小写 (未读到大写)")) ∧
    (findUpperAmount text.data = none → findLowerAmount text.data = none →
      text ≠ "" → find_amount_strict text = (0, "警告:未读到金额")) := by
  refine ⟨?_, ?_, ?_, ?_⟩
  · intro u l hu hl hd
    by_cases h0 : text = ""
    · subst h0
      rw [(by decide : findUpperAmount ("" : String).data = none)] at hu
      exact absurd hu (by simp)
    · rw [find_amount_strict_both text u l h0 hu hl, if_pos hd]
  · intro u l hu hl hd
    by_cases h0 : text = ""
    · subst h0
      rw [(by decide : findUpperAmount ("" : String).data = none)] at hu
      exact absurd hu (by simp)
    · rw [find_amount_strict_both text u l h0 hu hl, if_neg (not_lt.mpr hd)]
  · intro l hu hl
    by_cases h0 : text = ""
    · subst h0
      rw [(by decide : findLowerAmount ("" : String).data = none)] at hl
      exact absurd hl (by simp)
    · exact find_amount_strict_lower_only text l h0 hu hl
  · intro hu hl h0
    exact find_amount_strict_neither text h0 hu hl

/-- Witness for C5 (amended), at a text whose authoritative amount is 100 and
secondary amount is 99: the discrepancy note names both values. -/
theorem C5_witness :
    find_amount_strict "大写壹佰圆小写:99.00" = (100, discrepancyNote 100 99) :=
  (C5_decision_amended "大写壹佰圆小写:99.00").1 100 99 (by decide) (by decide) (by decide)

/-- C6 fails as stated for the XML side: the XML extractor parses whatever
number the amount field carries — here -5, breaking `amount >= 0` — and when
the field is absent it produces amount 0 with an empty status note (the field
does not exist on XML records), while the pipeline seeds the row's note with
the plain 正常 — nothing signals the missing amount. -/
theorem C6_counterexample :
    parse_xml_invoice_data "12345678901234567890" "" "" "-5" =
      some ⟨"12345678901234567890", "", "", -5, ""⟩ ∧
    ¬(0 : ℚ) ≤ (-5 : ℚ) ∧
    parse_xml_invoice_data "12345678901234567890" "" "" "" =
      some ⟨"12345678901234567890", "", "", 0, ""⟩ ∧
    xmlRowInitialNote = "正常" := by decide

/-- C6 (amended): the PDF side honours the invariant — `find_amount_strict`
never returns a negative amount, and an amount of 0 always comes with one of
the failure notes (no-amount warning or blank content); the PDF record
extractor therefore also returns a nonnegative amount, and a zero amount only
with the image-only, no-amount or blank-content note. -/
theorem C6_amount_invariants :
    (∀ text : String, 0 ≤ (find_amount_strict text).1 ∧
      ((find_amount_strict text).1 = 0 →
        (find_amount_strict text).2 = "警告:未读到金额" ∨
        (find_amount_strict text).2 = "空白内容")) ∧
    (∀ raw : Option String, 0 ≤ (extract_data_from_pdf_simple raw).amount ∧
      ((extract_data_from_pdf_simple raw).amount = 0 →
        (extract_data_from_pdf_simple raw).note = "⚠️ 纯图/扫描件" ∨
        (extract_data_from_pdf_simple raw).note = "警告:未读到金额" ∨
        (extract_data_from_pdf_simple raw).note = "空白内容")) := by
  have hmain : ∀ text : String, 0 ≤ (find_amount_strict text).1 ∧
      ((find_amount_strict text).1 = 0 →
        (find_amount_strict text).2 = "警告:未读到金额" ∨
        (find_amount_strict text).2 = "空白内容") := by
    intro text
    by_cases h0 : text = ""
    · subst h0
      exact ⟨by decide, fun _ => Or.inr (by decide)⟩
    · cases hu : findUpperAmount text.data with
      | some u =>
        have hupos := findUpperAmount_pos _ _ hu
        cases hl : findLowerAmount text.data with
        | some l =>
          rw [find_amount_strict_both text u l h0 hu hl]
          by_cases hd : 1/10 < |u - l|
          · rw [if_pos hd]
            exact ⟨le_of_lt hupos, fun hz => absurd hz (ne_of_gt hupos)⟩
          · rw [if_neg hd]
            exact ⟨le_of_lt hupos, fun hz => absurd hz (ne_of_gt hupos)⟩
        | none =>
          rw [find_amount_strict_upper_only text u h0 hu hl]
          exact ⟨le_of_lt hupos, fun hz => absurd hz (ne_of_gt hupos)⟩
      | none =>
        cases hl : findLowerAmount text.data with
        | some l =>
          have hlpos := findLowerAmount_pos _ _ hl
          rw [find_amount_strict_lower_only text l h0 hu hl]
          exact ⟨le_of_lt hlpos, fun hz => absurd hz (ne_of_gt hlpos)⟩
        | none =>
          rw [find_amount_strict_neither text h0 hu hl]
          exact ⟨le_refl 0, fun _ => Or.inl rfl⟩
  refine ⟨hmain, ?_⟩
  intro raw
  cases raw with
  | none => exact ⟨le_refl 0, fun _ => Or.inl rfl⟩
  | some r =>
    by_cases hlen : (pyStrip r).length < 10
    · have he : extract_data_from_pdf_simple (some r) = pureImageRec := by
        show (if (pyStrip r).length < 10 then pureImageRec else _) = pureImageRec
        rw [if_pos hlen]
      rw [he]
      exact ⟨le_refl 0, fun _ => Or.inl rfl⟩
    · have he : extract_data_from_pdf_simple (some r) = pdf_record_body r := by
        show (if (pyStrip r).length < 10 then pureImageRec else pdf_record_body r) =
          pdf_record_body r
        rw [if_neg hlen]
      rw [he]
      have hamt : (pdf_record_body r).amount = (find_amount_strict (normalize_text r)).1 := rfl
      constructor
      · rw [hamt]
        exact (hmain (normalize_text r)).1
      · intro hz
        rw [hamt] at hz
        have hnote : (pdf_record_body r).note = (find_amount_strict (normalize_text r)).2 := by
          show (if (pdf_record_body r).num = "" ∧ 0 < (find_amount_strict (normalize_text r)).1
            then _ else (find_amount_strict (normalize_text r)).2) =
            (find_amount_strict (normalize_text r)).2
          rw [if_neg]
          intro hcc
          rw [hz] at hcc
          exact lt_irrefl 0 hcc.2
        rw [hnote]
        rcases (hmain (normalize_text r)).2 hz with h | h
        · exact Or.inr (Or.inl h)
        · exact Or.inr (Or.inr h)

/-- Witness for C6 (amended) at a text with no extractable amount. -/
theorem C6_witness :
    (find_amount_strict "abcdefgh").2 = "警告:未读到金额" ∨
    (find_amount_strict "abcdefgh").2 = "空白内容" :=
  (C6_amount_invariants.1 "abcdefgh").2 (by decide)

/-! ### Claim theorems C9 -/

/-- C9 fails as stated: the classifier's content override fires on the plain
label substrings 发票代码/发票号码/电子发票, not on the spec's strong markers.
On a trip-named file whose text is the bare label 发票号码 — no digits follow
it and no total-including-tax label occurs — the spec predicate classifies the
file as a trip receipt while the code refuses. -/
theorem C9_counterexample :
    is_trip_file "trip.pdf" (some "发票号码") = false ∧
    spec_is_aux_receipt "trip.pdf" (some "发票号码") = true ∧
    labelThen8Digits (normalize_text "发票号码").data "发票号码".data = false ∧
    strContains (normalize_text "发票号码") "价税合计" = false := by decide

/-- C9 (amended): the classifier returns true exactly when the lowercased
filename contains one of 行程/trip/报销 and, whenever a nonempty text is
supplied, its normalized form contains none of the label substrings
发票代码, 发票号码, 电子发票. -/
theorem C9_classifier_amended (filename : String) (text : Option String) :
    is_trip_file filename text = true ↔
      ((strContains (lowerStr filename) "行程" || strContains (lowerStr filename) "trip" ||
        strContains (lowerStr filename) "报销") = true ∧
       ∀ t, text = some t → t ≠ "" →
         strContains (normalize_text t) "发票代码" = false ∧
         strContains (normalize_text t) "发票号码" = false ∧
         strContains (normalize_text t) "电子发票" = false) := by
  cases text with
  | none =>
    constructor
    · intro h
      unfold is_trip_file at h
      by_cases hk : (strContains (lowerStr filename) "行程" ||
          strContains (lowerStr filename) "trip" ||
          strContains (lowerStr filename) "报销") = true
      · exact ⟨hk, fun t ht => absurd ht (by simp)⟩
      · rw [if_neg hk] at h
        exact absurd h (by simp)
    · intro h
      unfold is_trip_file
      rw [if_pos h.1]
  | some t =>
    constructor
    · intro h
      unfold is_trip_file at h
      by_cases hk : (strContains (lowerStr filename) "行程" ||
          strContains (lowerStr filename) "trip" ||
          strContains (lowerStr filename) "报销") = true
      · rw [if_pos hk] at h
        replace h : (if t ≠ "" then
            (if strContains (normalize_text t) "发票代码" ||
                strContains (normalize_text t) "发票号码" ||
                strContains (normalize_text t) "电子发票" then false else true)
          else true) = true := h
        refine ⟨hk, ?_⟩
        intro t' ht' htne
        have htt : t = t' := by
          injection ht' with ht'
        subst htt
        rw [if_pos htne] at h
        by_cases hm : (strContains (normalize_text t) "发票代码" ||
            strContains (normalize_text t) "发票号码" ||
            strContains (normalize_text t) "电子发票") = true
        · rw [if_pos hm] at h
          exact absurd h (by simp)
        · simp only [Bool.or_eq_true, not_or, Bool.not_eq_true] at hm
          exact ⟨hm.1.1, hm.1.2, hm.2⟩
      · rw [if_neg hk] at h
        exact absurd h (by simp)
    · rintro ⟨hk, hmk⟩
      unfold is_trip_file
      rw [if_pos hk]
      show (if t ≠ "" then
          (if strContains (normalize_text t) "发票代码" ||
              strContains (normalize_text t) "发票号码" ||
              strContains (normalize_text t) "电子发票" then false else true)
        else true) = true
      by_cases hte : t = ""
      · rw [if_neg (fun hne => hne hte)]
      · rw [if_pos hte]
        rcases hmk t rfl hte with ⟨h1, h2, h3⟩
        simp [h1, h2, h3]

/-- Witness for C9 (amended): a trip-named file with no text is classified as
an auxiliary receipt. -/
theorem C9_witness : is_trip_file "行程单.pdf" none = true :=
  (C9_classifier_amended "行程单.pdf" none).mpr
    ⟨by decide, fun t ht => absurd ht (by simp)⟩

/-! ### Helper lemmas: shape of the secondary amount pattern -/

theorem takeDigits_spec (n : Nat) :
    ∀ cs ds r, takeDigits n cs = some (ds, r) →
      ds.length = n ∧ (∀ c ∈ ds, c.isDigit = true) ∧ cs = ds ++ r := by
  induction n with
  | zero =>
    intro cs ds r h
    simp only [takeDigits] at h
    injection h with h
    injection h with h1 h2
    subst h1
    subst h2
    exact ⟨rfl, by simp, by simp⟩
  | succ n ih =>
    intro cs ds r h
    cases cs with
    | nil => simp [takeDigits] at h
    | cons c t =>
      simp only [takeDigits] at h
      by_cases hd : c.isDigit = true
      · rw [if_pos hd] at h
        cases htd : takeDigits n t with
        | none =>
          rw [htd] at h
          exact absurd h (by simp)
        | some p =>
          rw [htd] at h
          rcases p with ⟨ds', r'⟩
          injection h with h
          injection h with h1 h2
          subst h1
          subst h2
          rcases ih t ds' r' htd with ⟨hl, hdig, happ⟩
          refine ⟨by simp [hl], ?_, by simp [happ]⟩
          intro x hx
          rcases List.mem_cons.mp hx with rfl | hx'
          · exact hd
          · exact hdig x hx'
      · rw [if_neg hd] at h
        exact absurd h (by simp)

theorem commaGroupsAux_chars (f : Nat) :
    ∀ cs x, x ∈ (commaGroupsAux f cs).1 → x = ',' ∨ x.isDigit = true := by
  induction f with
  | zero =>
    intro cs x hx
    simp [commaGroupsAux] at hx
  | succ f ih =>
    intro cs x hx
    cases cs with
    | nil => simp [commaGroupsAux] at hx
    | cons c rest =>
      simp only [commaGroupsAux] at hx
      by_cases hc : c = ','
      · rw [if_pos hc] at hx
        cases htd : takeDigits 3 rest with
        | none =>
          rw [htd] at hx
          simp at hx
        | some p =>
          rw [htd] at hx
          rcases p with ⟨ds, r⟩
          replace hx : x ∈ ',' :: ds ++ (commaGroupsAux f r).1 := hx
          rcases List.mem_cons.mp hx with rfl | hx'
          · exact Or.inl rfl
          · rcases List.mem_append.mp hx' with hx'' | hx''
            · exact Or.inr ((takeDigits_spec 3 rest ds r htd).2.1 x hx'')
            · exact ih r x hx''
      · rw [if_neg hc] at hx
        simp at hx

theorem numTry_shape (n : Nat) (cs m r : Chars) (h : numTry n cs = some (m, r)) :
    ∃ a b c, m = a ++ ['.', b, c] ∧ b.isDigit = true ∧ c.isDigit = true ∧
      (∀ x ∈ a, x.isDigit = true ∨ x = ',') ∧ '.' ∉ a := by
  unfold numTry at h
  cases htd : takeDigits n cs with
  | none =>
    rw [htd] at h
    exact absurd h (by simp)
  | some p =>
    rw [htd] at h
    rcases p with ⟨ds, r1⟩
    replace h : (match (commaGroups r1).2 with
      | c :: r2 =>
        if c = '.' then
          match takeDigits 2 r2 with
          | none => none
          | some (fs, r3) => some (ds ++ (commaGroups r1).1 ++ '.' :: fs, r3)
        else none
      | [] => none) = some (m, r) := h
    cases hg : (commaGroups r1).2 with
    | nil =>
      rw [hg] at h
      exact absurd h (by simp)
    | cons c2 r2 =>
      rw [hg] at h
      replace h : (if c2 = '.' then
          match takeDigits 2 r2 with
          | none => none
          | some (fs, r3) => some (ds ++ (commaGroups r1).1 ++ '.' :: fs, r3)
        else none) = some (m, r) := h
      by_cases hdot : c2 = '.'
      · rw [if_pos hdot] at h
        cases htd2 : takeDigits 2 r2 with
        | none =>
          rw [htd2] at h
          exact absurd h (by simp)
        | some q =>
          rw [htd2] at h
          rcases q with ⟨fs, r3⟩
          injection h with h
          injection h with h1 h2
          rcases takeDigits_spec 2 r2 fs r3 htd2 with ⟨hfl, hfdig, _⟩
          rcases List.length_eq_two.mp hfl with ⟨b, c, rfl⟩
          refine ⟨ds ++ (commaGroups r1).1, b, c, ?_, ?_, ?_, ?_, ?_⟩
          · rw [← h1]
          · exact hfdig b (by simp)
          · exact hfdig c (by simp)
          · intro x hx
            rcases List.mem_append.mp hx with hx' | hx'
            · exact Or.inl ((takeDigits_spec n cs ds r1 htd).2.1 x hx')
            · rcases commaGroupsAux_chars r1.length r1 x hx' with h' | h'
              · exact Or.inr h'
              · exact Or.inl h'
          · intro hx
            rcases List.mem_append.mp hx with hx' | hx'
            · have := (takeDigits_spec n cs ds r1 htd).2.1 '.' hx'
              exact absurd this (by decide)
            · rcases commaGroupsAux_chars r1.length r1 '.' hx' with h' | h'
              · exact absurd h' (by decide)
              · exact absurd h' (by decide)
      · rw [if_neg hdot] at h
        exact absurd h (by simp)

theorem numAt_shape (cs m r : Chars) (h : numAt cs = some (m, r)) :
    ∃ a b c, m = a ++ ['.', b, c] ∧ b.isDigit = true ∧ c.isDigit = true ∧
      (∀ x ∈ a, x.isDigit = true ∨ x = ',') ∧ '.' ∉ a := by
  unfold numAt at h
  cases h3 : numTry 3 cs with
  | some p =>
    rw [h3] at h
    injection h with h
    rw [h] at h3
    exact numTry_shape 3 cs m r h3
  | none =>
    rw [h3] at h
    cases h2 : numTry 2 cs with
    | some p =>
      rw [h2] at h
      injection h with h
      rw [h] at h2
      exact numTry_shape 2 cs m r h2
    | none =>
      rw [h2] at h
      exact numTry_shape 1 cs m r h

theorem lowerScanAux_shape (f : Nat) :
    ∀ cs m, m ∈ lowerScanAux f cs →
      ∃ a b c, m = a ++ ['.', b, c] ∧ b.isDigit = true ∧ c.isDigit = true ∧
        (∀ x ∈ a, x.isDigit = true ∨ x = ',') ∧ '.' ∉ a := by
  induction f with
  | zero =>
    intro cs m hm
    simp [lowerScanAux] at hm
  | succ f ih =>
    intro cs m hm
    cases cs with
    | nil => simp [lowerScanAux] at hm
    | cons c0 t =>
      simp only [lowerScanAux] at hm
      cases ha : lowerAnchorAt (c0 :: t) with
      | none =>
        rw [ha] at hm
        exact ih t m hm
      | some afterAnchor =>
        rw [ha] at hm
        replace hm : m ∈ (match numAt (skipNonNum afterAnchor) with
          | some (m0, rest) => m0 :: lowerScanAux f rest
          | none => lowerScanAux f t) := hm
        cases hn : numAt (skipNonNum afterAnchor) with
        | none =>
          rw [hn] at hm
          exact ih t m hm
        | some p =>
          rw [hn] at hm
          rcases p with ⟨m0, rest⟩
          rcases List.mem_cons.mp hm with rfl | hm'
          · exact numAt_shape _ _ _ hn
          · exact ih rest m hm'

/-! ### Claim theorem C10 -/

/-- C10: every figure the secondary scanner accepts ends in a decimal point
followed by exactly two digits, with only digits and comma separators before
it; an integer-formatted figure such as ¥500 is never matched, so that text
yields no secondary amount. -/
theorem C10_secondary_two_decimals :
    (∀ (text m : Chars), m ∈ lowerScan text →
      ∃ a b c, m = a ++ ['.', b, c] ∧ b.isDigit = true ∧ c.isDigit = true ∧
        (∀ x ∈ a, x.isDigit = true ∨ x = ',') ∧ '.' ∉ a) ∧
    lowerScan "¥500".data = [] ∧ findLowerAmount "¥500".data = none := by
  exact ⟨fun text m hm => lowerScanAux_shape text.length text m hm, by decide, by decide⟩

/-- Witness for C10: the single match of 合计1.23 decomposes as required. -/
theorem C10_witness :
    ∃ a b c, ("1.23".data : Chars) = a ++ ['.', b, c] ∧ b.isDigit = true ∧
      c.isDigit = true ∧ (∀ x ∈ a, x.isDigit = true ∨ x = ',') ∧ '.' ∉ a :=
  C10_secondary_two_decimals.1 "合计1.23".data "1.23".data (by decide)

end Invoice
